import Mathlib

/-!
Shallow embedding of the streaming transcription worker loop of
src/transcribe.py: the length-prefixed framing protocol on standard
input, PCM16 sample decoding, the peak-amplitude activity gate, engine
invocation and output emission.  Floating-point numbers are modelled by
exact rationals; the external speech engine is a parameter of the loop
body, returning either a list of segment texts or an exception (none).
Standard input is modelled as a list of byte values; a buffered blocking
read returns fewer bytes than requested only at end of stream.
-/

namespace Transcribe

/-- Standard input modelled as a list of byte values (each < 256 in any
stream produced by a real pipe). -/
abbrev ByteStream := List Nat

/-- Model of `sys.stdin.buffer.readline()`: the bytes up to and including
the first newline, or all remaining bytes when no newline is left. -/
def readline : ByteStream → List Nat × ByteStream
  | [] => ([], [])
  | b :: rest =>
    if b = 10 then ([10], rest)
    else
      let p := readline rest
      (b :: p.1, p.2)

/-- The ASCII whitespace bytes removed by `bytes.strip()`. -/
def isSpaceByte (b : Nat) : Bool :=
  b = 9 || b = 10 || b = 11 || b = 12 || b = 13 || b = 32

/-- Model of `bytes.strip()` on the length line. -/
def stripBytes (l : List Nat) : List Nat :=
  ((l.dropWhile isSpaceByte).reverse.dropWhile isSpaceByte).reverse

/-- Digit-part automaton of python `int()`: state 0 = nothing consumed
yet, 1 = last byte was a digit, 2 = last byte was a grouping underscore
(which must be followed by a digit). -/
def parseDigitsAux : Nat → Nat → List Nat → Option Nat
  | st, acc, [] => if st = 1 then some acc else none
  | st, acc, b :: rest =>
    if 48 ≤ b && b ≤ 57 then parseDigitsAux 1 (acc * 10 + (b - 48)) rest
    else if b = 95 && st = 1 then parseDigitsAux 2 acc rest
    else none

/-- An unsigned decimal literal as accepted by python `int()`. -/
def parseDigits (l : List Nat) : Option Nat := parseDigitsAux 0 0 l

/-- Model of `int(length_str)` on the stripped ASCII token: an optional
sign followed by digits (single grouping underscores allowed between
digits); any other byte raises ValueError, modelled as `none`. -/
def pyParseInt (l : List Nat) : Option Int :=
  match l with
  | 43 :: rest => (parseDigits rest).map fun v => (v : Int)
  | 45 :: rest => (parseDigits rest).map fun v => -(v : Int)
  | _ => (parseDigits l).map fun v => (v : Int)

/-- The two's-complement fix-up of the decode loop:
`if sample > 32767: sample -= 65536`. -/
def toSigned (v : Nat) : Int := if v > 32767 then (v : Int) - 65536 else (v : Int)

/-- One decoded sample: `sample = pcm[2i] | (pcm[2i+1] << 8)`, sign
fix-up, then division by 32767.0. -/
def decodeSample (b0 b1 : Nat) : ℚ := ((toSigned (b0 ||| (b1 <<< 8)) : Int) : ℚ) / 32767

/-- The decode loop: `num_samples = len(pcm_bytes) // 2` samples, in
index order, each from payload bytes `2i` and `2i+1`. -/
def decodePCM (pcm : List Nat) : List ℚ :=
  (List.range (pcm.length / 2)).map fun i =>
    decodeSample (pcm.getD (2 * i) 0) (pcm.getD (2 * i + 1) 0)

/-- Model of `np.max(np.abs(audio))`; `none` models the ValueError that
`np.max` raises on an empty array. -/
def maxAmp : List ℚ → Option ℚ
  | [] => none
  | x :: xs => some (xs.foldl (fun u v => max u |v|) |x|)

/-- The constant threshold `MIN_AUDIO_LEVEL = 0.1`. -/
def MIN_AUDIO_LEVEL : ℚ := 1 / 10

/-- The activity-gate classification of the loop body: `some true` means
silent (transcription skipped), `some false` means loud (engine called),
`none` means the peak computation itself raises (empty waveform). -/
def isSilent (t : ℚ) (w : List ℚ) : Option Bool :=
  (maxAmp w).map fun a => decide (a < t)

/-- The ASCII whitespace characters of python `str.strip()` (non-ASCII
unicode whitespace does not occur in this development). -/
def isPyWS (c : Char) : Bool :=
  c = ' ' || c = '\t' || c = '\n' || c = '\r' || c = '\x0b' || c = '\x0c'

/-- Model of `segment.text.strip()`. -/
def pyStrip (s : List Char) : List Char :=
  ((s.dropWhile isPyWS).reverse.dropWhile isPyWS).reverse

/-- The external speech engine, a black box injected into the loop body:
`some texts` is a successful call returning the segment texts in order,
`none` models the engine raising an exception. -/
abbrev Engine := List ℚ → Option (List (List Char))

/-- Observable outcome of one iteration of the main loop.
`rest` is the stream position after the iteration, `out` the line written
to standard output (if any), `engineCalled` whether `model.transcribe`
was invoked, `handledError` whether the outer `except Exception` handler
ran (it logs the error and sleeps 0.1 s), `halt` whether the loop breaks
(end of stream), `resyncBytes` how many bytes the best-effort resync
`read(1)` of the short-read branch consumed, and `gateArg` the waveform
passed to the peak-amplitude computation (when it was reached). -/
structure StepResult where
  rest : ByteStream
  out : Option (List Char)
  engineCalled : Bool
  handledError : Bool
  halt : Bool
  resyncBytes : Nat
  gateArg : Option (List ℚ)
deriving DecidableEq

/-- Lines 69-105 of transcribe.py: peak amplitude, the silence gate, the
engine call and segment joining, on a validated frame's decoded audio. -/
def processAudio (eng : Engine) (audio : List ℚ) (rest : ByteStream) : StepResult :=
  match maxAmp audio with
  | none => ⟨rest, none, false, true, false, 0, some audio⟩
  | some amp =>
    if amp < MIN_AUDIO_LEVEL then
      ⟨rest, none, false, false, false, 0, some audio⟩
    else
      match eng audio with
      | none => ⟨rest, none, true, true, false, 0, some audio⟩
      | some segs =>
        if segs = [] then ⟨rest, none, true, false, false, 0, some audio⟩
        else
          ⟨rest, some (List.intercalate [' '] (segs.map pyStrip)), true, false,
            false, 0, some audio⟩

/-- Lines 29-105 of transcribe.py: everything after a non-empty length
line has been read.  `lline` is the raw length line, `s1` the stream
after it.  `read(n)` follows buffered semantics: `n = -1` reads to end of
stream, `n < -1` raises ValueError (caught by the outer handler), and
`n ≥ 0` returns `min n remaining` bytes (short only at end of stream). -/
def handleLine (eng : Engine) (lline : List Nat) (s1 : ByteStream) : StepResult :=
  match pyParseInt (stripBytes lline) with
  | none => ⟨s1, none, false, false, false, 0, none⟩
  | some n =>
    if n < -1 then ⟨s1, none, false, true, false, 0, none⟩
    else
      let pcm := if n = -1 then s1 else s1.take n.toNat
      let s2 := if n = -1 then [] else s1.drop n.toNat
      if pcm = [] ∨ (pcm.length : Int) ≠ n then
        ⟨s2.drop 1, none, false, false, false, (s2.take 1).length, none⟩
      else
        if s2.take 1 ≠ [10] then
          ⟨s2.drop 1, none, false, false, false, 0, none⟩
        else
          processAudio eng (decodePCM pcm) (s2.drop 1)

/-- One full iteration of the `while True` loop: read the length line,
halt cleanly when it is empty (end of stream), otherwise process it. -/
def step (eng : Engine) (s : ByteStream) : StepResult :=
  let p := readline s
  if p.1 = [] then ⟨p.2, none, false, false, true, 0, none⟩
  else handleLine eng p.1 p.2

/-- A stand-in engine returning one fixed segment. -/
def engFixed : Engine := fun _ => some [['h', 'i']]

/-- A stand-in engine returning an empty segment list (no speech). -/
def engEmpty : Engine := fun _ => some []

/-- A stand-in engine that always raises. -/
def engRaise : Engine := fun _ => none

/-! ### Helper lemmas about the embedding -/

/-- Reading a line whose body contains no newline byte consumes the body
and the terminating newline. -/
theorem readline_eq (digits : List Nat) (rest : ByteStream)
    (h : ∀ b ∈ digits, b ≠ 10) :
    readline (digits ++ 10 :: rest) = (digits ++ [10], rest) := by
  induction digits with
  | nil => simp [readline]
  | cons d ds ih =>
    have hd : d ≠ 10 := h d (by simp)
    have ihh := ih fun b hb => h b (by simp [hb])
    simp [readline, hd, ihh]

/-- One loop iteration on a stream starting with a newline-terminated
length line reduces to the post-readline body. -/
theorem step_eq_handleLine (eng : Engine) (digits : List Nat) (rest : ByteStream)
    (h : ∀ b ∈ digits, b ≠ 10) :
    step eng (digits ++ 10 :: rest) = handleLine eng (digits ++ [10]) rest := by
  simp [step, readline_eq digits rest h]

/-- On a frame whose length line parses to the exact payload length and
whose payload is followed by the newline delimiter, the loop body reaches
the audio-processing stage. -/
theorem handleLine_valid (eng : Engine) (lline pcm : List Nat) (rest : ByteStream)
    (hparse : pyParseInt (stripBytes lline) = some (pcm.length : Int))
    (hpcm : pcm ≠ []) :
    handleLine eng lline (pcm ++ 10 :: rest) = processAudio eng (decodePCM pcm) rest := by
  unfold handleLine
  rw [hparse]
  have h1 : ¬ ((pcm.length : Int) < -1) := by omega
  have h2 : ¬ ((pcm.length : Int) = -1) := by omega
  simp only [h1, h2, if_false, Int.toNat_natCast, List.take_left, List.drop_left]
  simp [hpcm]

/-- The running maximum of absolute values is below a bound exactly when
the accumulator and every element are. -/
theorem foldl_max_abs_lt {t : ℚ} :
    ∀ (xs : List ℚ) (a : ℚ),
      (xs.foldl (fun u v => max u |v|) a < t ↔ a < t ∧ ∀ s ∈ xs, |s| < t) := by
  intro xs
  induction xs with
  | nil => intro a; simp
  | cons b bs ih =>
    intro a
    rw [List.foldl_cons, ih, max_lt_iff]
    simp only [List.mem_cons]
    constructor
    · rintro ⟨⟨h1, h2⟩, h3⟩
      refine ⟨h1, fun s hs => ?_⟩
      rcases hs with hs | hs
      · exact hs ▸ h2
      · exact h3 s hs
    · rintro ⟨h1, h2⟩
      exact ⟨⟨h1, h2 b (Or.inl rfl)⟩, fun s hs => h2 s (Or.inr hs)⟩

/-- The peak of a nonempty waveform. -/
theorem maxAmp_cons (x : ℚ) (xs : List ℚ) :
    maxAmp (x :: xs) = some (xs.foldl (fun u v => max u |v|) |x|) := rfl

/-- Bitwise assembly of a little-endian byte pair is plain arithmetic. -/
theorem lor_shiftLeft_eq_add {b0 : Nat} (b1 : Nat) (h : b0 < 256) :
    b0 ||| (b1 <<< 8) = b0 + 256 * b1 := by
  apply Nat.eq_of_testBit_eq
  intro j
  have h256 : b0 < 2 ^ 8 := h
  rw [Nat.testBit_lor, Nat.testBit_shiftLeft,
    show b0 + 256 * b1 = 2 ^ 8 * b1 + b0 by ring,
    Nat.testBit_mul_pow_two_add b1 h256 j]
  by_cases hj : j < 8
  · have hle : ¬ (8 ≤ j) := by omega
    simp [hj, hle]
  · have h8 : 8 ≤ j := by omega
    have hb0 : b0.testBit j = false :=
      Nat.testBit_lt_two_pow (lt_of_lt_of_le h256 (Nat.pow_le_pow_right (by norm_num) h8))
    simp [hj, h8, hb0]

/-- The sign fix-up keeps every 16-bit value inside the int16 range. -/
theorem toSigned_bounds {v : Nat} (h : v < 65536) :
    -32768 ≤ toSigned v ∧ toSigned v ≤ 32767 := by
  unfold toSigned
  split <;> omega

/-- Every decoded sample comes from one byte pair of the payload, at
indices `2i` and `2i+1`. -/
theorem mem_decodePCM {pcm : List Nat} {x : ℚ} (hx : x ∈ decodePCM pcm) :
    ∃ i, 2 * i + 1 < pcm.length ∧
      x = decodeSample (pcm.getD (2 * i) 0) (pcm.getD (2 * i + 1) 0) := by
  unfold decodePCM at hx
  simp only [List.mem_map, List.mem_range] at hx
  obtain ⟨i, hi, hxe⟩ := hx
  exact ⟨i, by omega, hxe.symm⟩

/-! ### Claim theorems -/

/-- Claim C4 (confirmed): the decoder assembles each little-endian byte
pair as an unsigned 16-bit value, reinterprets values at least 32768 by
subtracting 65536, and divides by 32767; decode(0x00, 0x80) equals
-32768/32767, which is within 1/32767 of -1, and decode(0xFF, 0x7F)
equals 1 exactly; the sample count is the truncating integer division of
the payload length by 2 (so a final odd byte is dropped) and the i-th
sample is computed from payload bytes 2i and 2i+1, in order. -/
theorem pcm16_decode_spec :
    (∀ b0 b1 : Nat, b0 < 256 → b1 < 256 →
      decodeSample b0 b1 =
        (((if 32768 ≤ b0 + 256 * b1 then (b0 : Int) + 256 * b1 - 65536
           else (b0 : Int) + 256 * b1) : Int) : ℚ) / 32767) ∧
    decodeSample 0 128 = -(32768 / 32767 : ℚ) ∧
    |decodeSample 0 128 - (-1)| = 1 / 32767 ∧
    decodeSample 255 127 = 1 ∧
    (∀ pcm : List Nat, (decodePCM pcm).length = pcm.length / 2) ∧
    (∀ (pcm : List Nat) (i : Nat), i < pcm.length / 2 →
      (decodePCM pcm).getD i 0 =
        decodeSample (pcm.getD (2 * i) 0) (pcm.getD (2 * i + 1) 0)) := by
  have hval : decodeSample 0 128 = -(32768 / 32767 : ℚ) := by
    norm_num [decodeSample, toSigned, Nat.shiftLeft_eq]
  refine ⟨?_, hval, ?_, ?_, ?_, ?_⟩
  · intro b0 b1 h0 h1
    unfold decodeSample toSigned
    rw [lor_shiftLeft_eq_add b1 h0]
    by_cases h : 32768 ≤ b0 + 256 * b1
    · rw [if_pos (by omega : 32767 < b0 + 256 * b1), if_pos h]
      push_cast
      ring
    · rw [if_neg (by omega : ¬ 32767 < b0 + 256 * b1), if_neg h]
      push_cast
      ring
  · rw [hval, show (-(32768 / 32767 : ℚ) - (-1)) = -(1 / 32767) by ring, abs_neg,
      abs_of_nonneg (by norm_num)]
  · have h : (255 ||| (127 <<< 8) : Nat) = 32767 := by decide
    norm_num [decodeSample, toSigned, h]
  · intro pcm
    simp [decodePCM]
  · intro pcm i hi
    unfold decodePCM
    rw [List.getD_eq_getElem?_getD, List.getElem?_map, List.getElem?_range hi]
    rfl

/-- Witness for claim C4 at the byte pair (0x00, 0x80) and at a payload
of three bytes (one full sample plus a dropped odd byte). -/
theorem pcm16_decode_spec_witness :
    decodeSample 0 128 =
      (((if 32768 ≤ 0 + 256 * 128 then ((0 : Nat) : Int) + 256 * ((128 : Nat) : Int) - 65536
         else ((0 : Nat) : Int) + 256 * ((128 : Nat) : Int)) : Int) : ℚ) / 32767 ∧
    (decodePCM [0, 128, 255]).getD 0 0 =
      decodeSample ([0, 128, 255].getD (2 * 0) 0) ([0, 128, 255].getD (2 * 0 + 1) 0) :=
  ⟨pcm16_decode_spec.1 0 128 (by decide) (by decide),
    pcm16_decode_spec.2.2.2.2.2 [0, 128, 255] 0 (by decide)⟩

/-- Claim C6 is refuted at the byte pair (0x00, 0x80): the decoded sample
is -32768/32767, which lies strictly below -1, outside the claimed closed
interval [-1, 1]. -/
theorem sample_below_neg_one : decodeSample 0 128 < -1 := by
  norm_num [decodeSample, toSigned, Nat.shiftLeft_eq]

/-- Claim C6 (amended): every sample produced by the decoder lies in the
closed interval [-32768/32767, 1]; the lower endpoint is slightly below
-1 because the most negative int16 value -32768 is divided by 32767. -/
theorem decode_range_amended (pcm : List Nat) (hb : ∀ b ∈ pcm, b < 256) :
    ∀ x ∈ decodePCM pcm, -(32768 / 32767 : ℚ) ≤ x ∧ x ≤ 1 := by
  intro x hx
  obtain ⟨i, hi, hxe⟩ := mem_decodePCM hx
  have h2i : 2 * i < pcm.length := by omega
  have hb0 : pcm.getD (2 * i) 0 < 256 := by
    rw [List.getD_eq_getElem pcm 0 h2i]
    exact hb _ (List.getElem_mem h2i)
  have hb1 : pcm.getD (2 * i + 1) 0 < 256 := by
    rw [List.getD_eq_getElem pcm 0 hi]
    exact hb _ (List.getElem_mem hi)
  have hv : pcm.getD (2 * i) 0 ||| (pcm.getD (2 * i + 1) 0 <<< 8) < 65536 := by
    rw [lor_shiftLeft_eq_add _ hb0]
    omega
  obtain ⟨hlo, hhi⟩ := toSigned_bounds hv
  rw [hxe]
  unfold decodeSample
  set z : Int := toSigned (pcm.getD (2 * i) 0 ||| (pcm.getD (2 * i + 1) 0 <<< 8)) with hz
  have hlo2 : (-32768 : ℚ) ≤ (z : ℚ) := by exact_mod_cast hlo
  have hhi2 : (z : ℚ) ≤ 32767 := by exact_mod_cast hhi
  constructor
  · calc -(32768 / 32767 : ℚ) = (-32768) / 32767 := by norm_num
    _ ≤ (z : ℚ) / 32767 := by gcongr
  · calc (z : ℚ) / 32767 ≤ 32767 / 32767 := by gcongr
    _ = 1 := by norm_num

/-- Witness for claim C6 at the most negative decodable sample. -/
theorem decode_range_amended_witness :
    -(32768 / 32767 : ℚ) ≤ decodeSample 0 128 ∧ decodeSample 0 128 ≤ 1 :=
  decode_range_amended [0, 128] (by decide) (decodeSample 0 128)
    (by simp [decodePCM, List.range_succ])

/-- Claim C5 (confirmed): the gate classifies a nonempty waveform silent
exactly when every sample's absolute value is below the threshold (i.e.
peak amplitude is strictly below it); an all-zero waveform is silent for
every positive threshold; a waveform containing a sample whose absolute
value equals the threshold is classified not silent; and on a well-formed
frame classified not silent the loop invokes the transcription engine. -/
theorem gate_classification (t : ℚ) (ht : 0 < t) :
    (∀ w : List ℚ, w ≠ [] → (isSilent t w = some true ↔ ∀ s ∈ w, |s| < t)) ∧
    (∀ w : List ℚ, w ≠ [] → (∀ s ∈ w, s = 0) → isSilent t w = some true) ∧
    (∀ w : List ℚ, (∃ s ∈ w, |s| = t) → isSilent t w = some false) ∧
    (∀ (eng : Engine) (digits pcm : List Nat) (rest : ByteStream),
      (∀ b ∈ digits, b ≠ 10) →
      pyParseInt (stripBytes (digits ++ [10])) = some (pcm.length : Int) →
      pcm ≠ [] →
      isSilent MIN_AUDIO_LEVEL (decodePCM pcm) = some false →
      (step eng (digits ++ 10 :: (pcm ++ 10 :: rest))).engineCalled = true) := by
  have key : ∀ w : List ℚ, w ≠ [] → (isSilent t w = some true ↔ ∀ s ∈ w, |s| < t) := by
    intro w hw
    rcases w with - | ⟨x, xs⟩
    · exact absurd rfl hw
    · simp [isSilent, maxAmp_cons, foldl_max_abs_lt, List.forall_mem_cons]
  refine ⟨key, ?_, ?_, ?_⟩
  · intro w hw hz
    refine (key w hw).mpr fun s hs => ?_
    rw [hz s hs]
    simpa using ht
  · intro w hex
    rcases w with - | ⟨x, xs⟩
    · obtain ⟨s0, hs0, -⟩ := hex
      simp at hs0
    · obtain ⟨s0, hs0, habs⟩ := hex
      rw [isSilent, maxAmp_cons]
      simp only [Option.map_some', Option.some.injEq, decide_eq_false_iff_not]
      intro hlt
      have hall := (foldl_max_abs_lt xs |x|).mp hlt
      have habs2 : |s0| < t := by
        rcases List.mem_cons.mp hs0 with hs1 | hs1
        · exact hs1 ▸ hall.1
        · exact hall.2 s0 hs1
      rw [habs] at habs2
      exact absurd habs2 (lt_irrefl t)
  · intro eng digits pcm rest hd hparse hpcm hsil
    rw [step_eq_handleLine eng digits _ hd, handleLine_valid eng _ pcm rest hparse hpcm]
    rcases h : maxAmp (decodePCM pcm) with - | a
    · rw [isSilent, h] at hsil
      simp at hsil
    · rw [isSilent, h] at hsil
      simp only [Option.map_some', Option.some.injEq, decide_eq_false_iff_not] at hsil
      rcases heng : eng (decodePCM pcm) with - | segs
      · simp [processAudio, h, hsil, heng]
      · rcases segs with - | ⟨s, ss⟩
        · simp [processAudio, h, hsil, heng]
        · simp [processAudio, h, hsil, heng]

/-- Witness for claim C5 at threshold 1/10: an all-zero waveform, a
waveform holding exactly the threshold, and a loud well-formed frame on
which the engine runs. -/
theorem gate_classification_witness :
    isSilent (1 / 10 : ℚ) [0, 0] = some true ∧
    isSilent (1 / 10 : ℚ) [1 / 10] = some false ∧
    (step engFixed [52, 10, 255, 127, 255, 127, 10]).engineCalled = true := by
  have h := gate_classification (1 / 10) (by norm_num)
  refine ⟨h.2.1 [0, 0] (by simp) (by simp), h.2.2.1 [1 / 10] ?_, ?_⟩
  · exact ⟨1 / 10, by simp, abs_of_nonneg (by norm_num)⟩
  · have hlor : (255 ||| (127 <<< 8) : Nat) = 32767 := by decide
    exact h.2.2.2 engFixed [52] [255, 127, 255, 127] [] (by decide) (by decide)
      (by decide)
      (by norm_num [isSilent, decodePCM, decodeSample, toSigned, List.range_succ,
        maxAmp, MIN_AUDIO_LEVEL, hlor])

/-- Claim C1 is refuted at the input consisting of length line 4, four
zero payload bytes and a trailing newline: the silent branch writes no
output line at all (it only flushes), rather than the claimed empty
line; the engine is indeed not called. -/
theorem silent_frame_counterexample :
    (step engFixed [52, 10, 0, 0, 0, 0, 10]).out = none ∧
    (step engFixed [52, 10, 0, 0, 0, 0, 10]).engineCalled = false := by
  have h : step engFixed [52, 10, 0, 0, 0, 0, 10] =
      ⟨[], none, false, false, false, 0, some [0, 0]⟩ := by
    norm_num [step, readline, handleLine, processAudio, stripBytes, isSpaceByte,
      pyParseInt, parseDigits, parseDigitsAux, decodePCM, decodeSample, toSigned,
      List.range_succ, maxAmp, MIN_AUDIO_LEVEL, engFixed,
      show ((4 : Int)).toNat = 4 from rfl, List.cons_ne_nil]
  rw [h]
  exact ⟨rfl, rfl⟩

/-- Claim C1 (amended): for every frame whose decoded waveform has peak
amplitude strictly below the threshold, the loop skips the engine and
writes no output line for that frame (standard output is only flushed);
the frame is consumed and the loop continues. -/
theorem silent_frame_amended (eng : Engine) (digits pcm : List Nat)
    (rest : ByteStream) (a : ℚ)
    (hd : ∀ b ∈ digits, b ≠ 10)
    (hparse : pyParseInt (stripBytes (digits ++ [10])) = some (pcm.length : Int))
    (hpcm : pcm ≠ [])
    (hamp : maxAmp (decodePCM pcm) = some a)
    (hsil : a < MIN_AUDIO_LEVEL) :
    step eng (digits ++ 10 :: (pcm ++ 10 :: rest)) =
      ⟨rest, none, false, false, false, 0, some (decodePCM pcm)⟩ := by
  rw [step_eq_handleLine eng digits _ hd, handleLine_valid eng _ pcm rest hparse hpcm]
  simp [processAudio, hamp, hsil]

/-- Witness for claim C1 at the spec's end-to-end input: length line 4,
four zero bytes, trailing newline. -/
theorem silent_frame_amended_witness :
    step engFixed [52, 10, 0, 0, 0, 0, 10] =
      ⟨[], none, false, false, false, 0, some (decodePCM [0, 0, 0, 0])⟩ :=
  silent_frame_amended engFixed [52] [0, 0, 0, 0] [] 0 (by decide) (by decide)
    (by decide)
    (by norm_num [decodePCM, decodeSample, toSigned, List.range_succ, maxAmp])
    (by norm_num [MIN_AUDIO_LEVEL])

/-- Claim C2 is refuted by an engine returning an empty segment list on a
loud frame: the loop writes no output line at all (only a stderr log),
rather than the claimed empty line. -/
theorem empty_result_counterexample :
    (step engEmpty [52, 10, 255, 127, 255, 127, 10]).out = none ∧
    (step engEmpty [52, 10, 255, 127, 255, 127, 10]).engineCalled = true := by
  have hlor : (255 ||| (127 <<< 8) : Nat) = 32767 := by decide
  have h : step engEmpty [52, 10, 255, 127, 255, 127, 10] =
      ⟨[], none, true, false, false, 0, some [1, 1]⟩ := by
    norm_num [step, readline, handleLine, processAudio, stripBytes, isSpaceByte,
      pyParseInt, parseDigits, parseDigitsAux, decodePCM, decodeSample, toSigned,
      List.range_succ, maxAmp, MIN_AUDIO_LEVEL, engEmpty, hlor,
      show ((4 : Int)).toNat = 4 from rfl, List.cons_ne_nil]
  rw [h]
  exact ⟨rfl, rfl⟩

/-- Claim C2 (amended): on a frame that passes the gate, an empty segment
list from the engine produces no standard-output line (the empty result
is not written); a non-empty segment list produces exactly one line equal
to the segment texts, each stripped of surrounding whitespace, joined
with single spaces in order. -/
theorem empty_result_amended (eng : Engine) (digits pcm : List Nat)
    (rest : ByteStream) (a : ℚ)
    (hd : ∀ b ∈ digits, b ≠ 10)
    (hparse : pyParseInt (stripBytes (digits ++ [10])) = some (pcm.length : Int))
    (hpcm : pcm ≠ [])
    (hamp : maxAmp (decodePCM pcm) = some a)
    (hloud : ¬ a < MIN_AUDIO_LEVEL) :
    (eng (decodePCM pcm) = some [] →
      step eng (digits ++ 10 :: (pcm ++ 10 :: rest)) =
        ⟨rest, none, true, false, false, 0, some (decodePCM pcm)⟩) ∧
    (∀ segs, eng (decodePCM pcm) = some segs → segs ≠ [] →
      step eng (digits ++ 10 :: (pcm ++ 10 :: rest)) =
        ⟨rest, some (List.intercalate [' '] (segs.map pyStrip)), true, false,
          false, 0, some (decodePCM pcm)⟩) := by
  rw [step_eq_handleLine eng digits _ hd, handleLine_valid eng _ pcm rest hparse hpcm]
  constructor
  · intro he
    simp [processAudio, hamp, hloud, he]
  · intro segs he hne
    simp [processAudio, hamp, hloud, he, hne]

/-- Witness for claim C2 on a loud two-sample frame, once with an engine
returning no segments and once with an engine returning one segment. -/
theorem empty_result_amended_witness :
    step engEmpty [52, 10, 255, 127, 255, 127, 10] =
      ⟨[], none, true, false, false, 0, some (decodePCM [255, 127, 255, 127])⟩ ∧
    step engFixed [52, 10, 255, 127, 255, 127, 10] =
      ⟨[], some (List.intercalate [' '] ([['h', 'i']].map pyStrip)), true, false,
        false, 0, some (decodePCM [255, 127, 255, 127])⟩ := by
  have hlor : (255 ||| (127 <<< 8) : Nat) = 32767 := by decide
  have hamp : maxAmp (decodePCM [255, 127, 255, 127]) = some 1 := by
    norm_num [decodePCM, decodeSample, toSigned, List.range_succ, maxAmp, hlor]
  have hloud : ¬ (1 : ℚ) < MIN_AUDIO_LEVEL := by norm_num [MIN_AUDIO_LEVEL]
  exact ⟨(empty_result_amended engEmpty [52] [255, 127, 255, 127] [] 1 (by decide)
      (by decide) (by decide) hamp hloud).1 rfl,
    (empty_result_amended engFixed [52] [255, 127, 255, 127] [] 1 (by decide)
      (by decide) (by decide) hamp hloud).2 [['h', 'i']] rfl (by decide)⟩

/-- Claim C3 is contradicted by the code on the length token -1: python
int() parses it, so the discard branch is not taken; the subsequent
read(-1) consumes the entire remaining stream, so a well-formed frame
following the bad token is swallowed unprocessed and the next iteration
halts at end of stream.  (A token such as -5 makes read(n) raise
ValueError, which the outer handler recovers from, leaving the stream
position intact - that case matches the claim.)  The third conjunct
shows the swallowed frame would have been processed on its own. -/
theorem negative_length_consumes_stream :
    step engFixed [45, 49, 10, 52, 10, 0, 0, 0, 0, 10] =
      ⟨[], none, false, false, false, 0, none⟩ ∧
    step engFixed [45, 53, 10, 99] = ⟨[99], none, false, true, false, 0, none⟩ ∧
    step engFixed [52, 10, 0, 0, 0, 0, 10] =
      ⟨[], none, false, false, false, 0, some [0, 0]⟩ := by
  refine ⟨?_, ?_, ?_⟩
  · norm_num [step, readline, handleLine, stripBytes, isSpaceByte,
      pyParseInt, parseDigits, parseDigitsAux, List.cons_ne_nil]
  · norm_num [step, readline, handleLine, stripBytes, isSpaceByte,
      pyParseInt, parseDigits, parseDigitsAux, List.cons_ne_nil]
  · norm_num [step, readline, handleLine, processAudio, stripBytes, isSpaceByte,
      pyParseInt, parseDigits, parseDigitsAux, decodePCM, decodeSample, toSigned,
      List.range_succ, maxAmp, MIN_AUDIO_LEVEL, engFixed,
      show ((4 : Int)).toNat = 4 from rfl, List.cons_ne_nil]

/-- Claim C7 is refuted on the stream with declared length 4 but only two
obtainable payload bytes: the frame is discarded and the loop continues,
but the best-effort resync read consumes zero bytes, not exactly one,
because a short read leaves the stream at end of stream. -/
theorem short_read_resync_counterexample :
    (step engFixed [52, 10, 65, 66]).resyncBytes = 0 ∧
    (step engFixed [52, 10, 65, 66]).rest = [] ∧
    (step engFixed [52, 10, 65, 66]).out = none ∧
    (step engFixed [52, 10, 65, 66]).engineCalled = false ∧
    (step engFixed [52, 10, 65, 66]).halt = false := by
  have h : step engFixed [52, 10, 65, 66] =
      ⟨[], none, false, false, false, 0, none⟩ := by
    norm_num [step, readline, handleLine, stripBytes, isSpaceByte,
      pyParseInt, parseDigits, parseDigitsAux,
      show ((4 : Int)).toNat = 4 from rfl, List.cons_ne_nil]
  rw [h]
  exact ⟨rfl, rfl, rfl, rfl, rfl⟩

/-- Claim C7 (amended): when the declared length exceeds the bytes
obtainable from the stream, the frame is discarded without decoding,
gating, engine call or output, the loop iteration ends with continue
rather than crashing, and the one-byte resync read consumes nothing,
since after a short read on a blocking buffered stream the stream is
already exhausted (the loop then exits cleanly at the next read). -/
theorem short_read_amended (eng : Engine) (digits : List Nat)
    (tail : ByteStream) (n : Int)
    (hd : ∀ b ∈ digits, b ≠ 10)
    (hparse : pyParseInt (stripBytes (digits ++ [10])) = some n)
    (hn : 0 ≤ n)
    (hshort : (tail.length : Int) < n) :
    step eng (digits ++ 10 :: tail) = ⟨[], none, false, false, false, 0, none⟩ := by
  rw [step_eq_handleLine eng digits tail hd]
  unfold handleLine
  rw [hparse]
  have h1 : ¬ (n < -1) := by omega
  have h2 : ¬ (n = -1) := by omega
  have htake : tail.take n.toNat = tail := List.take_of_length_le (by omega)
  have hdrop : tail.drop n.toNat = [] := List.drop_eq_nil_of_le (by omega)
  have hne : (tail.length : Int) ≠ n := by omega
  simp [h1, h2, htake, hdrop, hne]

/-- Witness for claim C7: declared length 4, two obtainable bytes. -/
theorem short_read_amended_witness :
    step engFixed [52, 10, 65, 66] = ⟨[], none, false, false, false, 0, none⟩ :=
  short_read_amended engFixed [52] [65, 66] 4 (by decide) (by decide) (by decide)
    (by decide)

/-- Claim C8 (confirmed): when the full payload is read but the byte
after it is not the newline delimiter, the frame is discarded with no
decoding, no gating, no engine call and no output line, the offending
byte is consumed, and the loop continues (the condition is not fatal). -/
theorem bad_delimiter_discard (eng : Engine) (digits pcm : List Nat) (b : Nat)
    (rest : ByteStream)
    (hd : ∀ b2 ∈ digits, b2 ≠ 10)
    (hparse : pyParseInt (stripBytes (digits ++ [10])) = some (pcm.length : Int))
    (hpcm : pcm ≠ [])
    (hb : b ≠ 10) :
    step eng (digits ++ 10 :: (pcm ++ b :: rest)) =
      ⟨rest, none, false, false, false, 0, none⟩ := by
  rw [step_eq_handleLine eng digits _ hd]
  unfold handleLine
  rw [hparse]
  have h1 : ¬ ((pcm.length : Int) < -1) := by omega
  have h2 : ¬ ((pcm.length : Int) = -1) := by omega
  simp only [h1, h2, if_false, Int.toNat_natCast, List.take_left, List.drop_left]
  simp [hpcm, hb]

/-- Witness for claim C8: a four-byte payload followed by the byte 65
instead of a newline. -/
theorem bad_delimiter_discard_witness :
    step engFixed [52, 10, 0, 0, 0, 0, 65] =
      ⟨[], none, false, false, false, 0, none⟩ :=
  bad_delimiter_discard engFixed [52] [0, 0, 0, 0] 65 [] (by decide) (by decide)
    (by decide) (by decide)

/-- Claim C9 (confirmed): when the engine raises on a frame that passed
the gate, the exception is caught inside the loop iteration by the outer
handler, which logs the error and sleeps briefly; no line is written to
standard output for that frame and the loop continues with the next
frame instead of crashing. -/
theorem engine_failure_recovery (eng : Engine) (digits pcm : List Nat)
    (rest : ByteStream) (a : ℚ)
    (hd : ∀ b ∈ digits, b ≠ 10)
    (hparse : pyParseInt (stripBytes (digits ++ [10])) = some (pcm.length : Int))
    (hpcm : pcm ≠ [])
    (hamp : maxAmp (decodePCM pcm) = some a)
    (hloud : ¬ a < MIN_AUDIO_LEVEL)
    (heng : eng (decodePCM pcm) = none) :
    step eng (digits ++ 10 :: (pcm ++ 10 :: rest)) =
      ⟨rest, none, true, true, false, 0, some (decodePCM pcm)⟩ := by
  rw [step_eq_handleLine eng digits _ hd, handleLine_valid eng _ pcm rest hparse hpcm]
  simp [processAudio, hamp, hloud, heng]

/-- Witness for claim C9: a loud two-sample frame with a raising engine. -/
theorem engine_failure_recovery_witness :
    step engRaise [52, 10, 255, 127, 255, 127, 10] =
      ⟨[], none, true, true, false, 0, some (decodePCM [255, 127, 255, 127])⟩ := by
  have hlor : (255 ||| (127 <<< 8) : Nat) = 32767 := by decide
  exact engine_failure_recovery engRaise [52] [255, 127, 255, 127] [] 1 (by decide)
    (by decide) (by decide)
    (by norm_num [decodePCM, decodeSample, toSigned, List.range_succ, maxAmp, hlor])
    (by norm_num [MIN_AUDIO_LEVEL]) rfl

/-- Claim C10 is refuted on the input with length line 1, one payload
byte and a trailing newline: that frame passes all framing checks, its
decoded waveform is empty (1 // 2 = 0 samples), and the peak-amplitude
computation is reached with zero samples, where np.max raises and the
outer handler recovers - so the computation is not unreachable with
empty input, contrary to the claim's consequence. -/
theorem empty_waveform_reached_counterexample :
    (step engFixed [49, 10, 88, 10]).gateArg = some [] ∧
    (step engFixed [49, 10, 88, 10]).handledError = true := by
  have h : step engFixed [49, 10, 88, 10] =
      ⟨[], none, false, true, false, 0, some []⟩ := by
    norm_num [step, readline, handleLine, processAudio, stripBytes, isSpaceByte,
      pyParseInt, parseDigits, parseDigitsAux, decodePCM, maxAmp,
      show ((1 : Int)).toNat = 1 from rfl, List.cons_ne_nil]
  rw [h]
  exact ⟨rfl, rfl⟩

/-- Claim C10 (amended): a frame whose length line parses as 0 is treated
as a failed read and discarded, consuming one resync byte when one is
available, and the peak computation is not reached for it; however the
peak-amplitude computation can still be reached with zero samples, via a
declared length of 1 whose single payload byte decodes to an empty
waveform - there np.max raises and the outer handler recovers. -/
theorem zero_length_amended :
    (∀ (eng : Engine) (digits : List Nat) (tail : ByteStream),
      (∀ b ∈ digits, b ≠ 10) →
      pyParseInt (stripBytes (digits ++ [10])) = some 0 →
      step eng (digits ++ 10 :: tail) =
        ⟨tail.drop 1, none, false, false, false, (tail.take 1).length, none⟩) ∧
    (∀ (eng : Engine) (digits : List Nat) (b : Nat) (rest : ByteStream),
      (∀ b2 ∈ digits, b2 ≠ 10) →
      pyParseInt (stripBytes (digits ++ [10])) = some 1 →
      step eng (digits ++ 10 :: (b :: 10 :: rest)) =
        ⟨rest, none, false, true, false, 0, some []⟩) := by
  constructor
  · intro eng digits tail hd hparse
    rw [step_eq_handleLine eng digits tail hd]
    unfold handleLine
    rw [hparse]
    norm_num
  · intro eng digits b rest hd hparse
    have hparse2 : pyParseInt (stripBytes (digits ++ [10])) = some (([b].length : Nat) : Int) := by
      rw [hparse]
      norm_num
    rw [show digits ++ 10 :: (b :: 10 :: rest) = digits ++ 10 :: ([b] ++ 10 :: rest) by simp,
      step_eq_handleLine eng digits _ hd,
      handleLine_valid eng _ [b] rest hparse2 (by simp)]
    have haudio : decodePCM [b] = [] := by simp [decodePCM]
    rw [haudio]
    simp [processAudio, maxAmp]

/-- Witness for claim C10: length line 0 with one byte left, and length
line 1 with a one-byte payload plus delimiter. -/
theorem zero_length_amended_witness :
    step engFixed [48, 10, 10] =
      ⟨([10] : ByteStream).drop 1, none, false, false, false,
        (([10] : ByteStream).take 1).length, none⟩ ∧
    step engFixed [49, 10, 88, 10] = ⟨[], none, false, true, false, 0, some []⟩ :=
  ⟨zero_length_amended.1 engFixed [48] [10] (by decide) (by decide),
    zero_length_amended.2 engFixed [49] 88 [] (by decide) (by decide)⟩

end Transcribe
